import Mathlib

/-
  Verification of the adaptive file delivery pipeline
  (URL_UploadV1: file_handler.py, mtproto_client.py, utils.py).

  The Python source is shallowly embedded: pure helpers become Lean
  functions, the stateful send/download paths become functions from the
  request inputs and environment outcomes (modelled as explicit oracle
  arguments) to an outcome record carrying the observable events.
-/

namespace UrlUpload

/-- Bot API payload cap: HybridFileHandler.bot_api_limit = 50 * 1024 * 1024. -/
def botApiLimit : Nat := 50 * 1024 * 1024

/-- Chunk size used by the splitter: FileHandler.chunk_size = 45 * 1024 * 1024. -/
def chunkSizeDefault : Nat := 45 * 1024 * 1024

/-- The three outcomes of the dispatch in HybridFileHandler.send_file:
small files go to the Bot API, large files go to MTProto when available,
and otherwise the request is rejected with an advisory message. -/
inductive Strategy
  | Direct
  | SecondaryLarge
  | Reject
deriving DecidableEq

/-- The dispatch condition of HybridFileHandler.send_file as a pure function
of file size and MTProto availability (the two values the branch reads). -/
def chooseStrategy (size : Nat) (available : Bool) : Strategy :=
  if size ≤ botApiLimit then .Direct
  else if available then .SecondaryLarge
  else .Reject

/-- Observable transport events of the send path. -/
inductive Event
  | botApiSend
  | mtprotoCall
  | chunkSend (idx : Nat)
  | message
  | deleteMsg
deriving DecidableEq

/-- Is the event a chunk send? -/
def chunkEvent : Event → Bool
  | .chunkSend _ => true
  | _ => false

/-- HybridFileHandler.send_file: dispatch on file size and MTProto
availability.  `ctx` is whether a Bot API context was passed; `botApiOk` and
`mtOk` are the environment outcomes of the respective send calls.  Returns
the list of transport events performed and the boolean result. -/
def sendFile (size : Nat) (available ctx : Bool) (botApiOk mtOk : Bool) :
    List Event × Bool :=
  if size ≤ botApiLimit then
    if ctx then ([.botApiSend], botApiOk) else ([], false)
  else if available then
    if ctx then ([.message, .mtprotoCall, .deleteMsg], mtOk)
    else ([.mtprotoCall], mtOk)
  else
    if ctx then ([.message], false) else ([], false)

/-- Responses the MTProto transport can give to one send attempt
(MTProtoFileHandler.send_large_document). -/
inductive MtResp
  | ok
  | floodWait (seconds : Nat)
  | filePartMissing
  | otherErr
deriving DecidableEq

/-- Trace of MTProtoFileHandler.send_large_document: the sleeps performed
(one per rate-limit signal, with its mandated duration), the number of send
attempts made, and the final result. -/
structure MtSendTrace where
  sleeps : List Nat
  attempts : Nat
  success : Bool
deriving DecidableEq

/-- MTProtoFileHandler.send_large_document over the list of responses the
transport returns to consecutive attempts: FloodWait sleeps for the mandated
duration and retries (the recursive call in the source), FilePartMissing and
any other error fail with no retry. -/
def send_large_document : List MtResp → MtSendTrace
  | [] => ⟨[], 0, false⟩
  | .ok :: _ => ⟨[], 1, true⟩
  | .floodWait s :: rest =>
    let t := send_large_document rest
    ⟨s :: t.sleeps, t.attempts + 1, t.success⟩
  | .filePartMissing :: _ => ⟨[], 1, false⟩
  | .otherErr :: _ => ⟨[], 1, false⟩

/-- Timeout passed to the Bot API send_document call. -/
inductive TgTimeout
  | libraryDefault
  | explicit (seconds : Nat)
deriving DecidableEq

/-- The timeout computation of FileHandler.send_file_to_telegram: files over
10 MB get min(300, max(60, file_size // (1024*1024) * 10)); smaller files
are sent with the library default timeouts. -/
def sendDocumentTimeout (size : Nat) : TgTimeout :=
  if 10 * 1024 * 1024 < size then
    .explicit (min 300 (max 60 (size / (1024 * 1024) * 10)))
  else .libraryDefault

/-- FileHandler.send_file_to_telegram: files over the 50 MB cap are refused
without a send call (`none`); otherwise one send_document call is made with
the size-scaled timeout, succeeding iff the environment lets it. -/
def send_file_to_telegram (size : Nat) (sendOk : Bool) :
    Option TgTimeout × Bool :=
  if botApiLimit < size then (none, false)
  else (some (sendDocumentTimeout size), sendOk)

/-- Modelled from the spec words of claim C8, for comparison with the code:
"base 60s, +10s per MB, capped at 300s". -/
def specTimeoutC8 (size : Nat) : Nat :=
  min 300 (60 + 10 * (size / (1024 * 1024)))

/-- Number of chunks the spec mandates for a SplitFallback request:
ceil(size / 45MB). -/
def specChunkCount (size : Nat) : Nat :=
  (size + chunkSizeDefault - 1) / chunkSizeDefault

/-- C4: the transport strategy is a pure function of size and secondary
availability; with a context present, size ≤ 50 MB routes to Direct with
exactly one Bot API send and no MTProto call or chunking, and size > 50 MB
with the secondary available routes to SecondaryLarge with exactly one
MTProto send invocation and no chunking. -/
theorem c4_strategy_routing (size : Nat) (available botApiOk mtOk : Bool) :
    (size ≤ botApiLimit →
      chooseStrategy size available = .Direct ∧
      (sendFile size available true botApiOk mtOk).1.count .botApiSend = 1 ∧
      (sendFile size available true botApiOk mtOk).1.count .mtprotoCall = 0 ∧
      (sendFile size available true botApiOk mtOk).1.countP chunkEvent = 0) ∧
    (botApiLimit < size → available = true →
      chooseStrategy size available = .SecondaryLarge ∧
      (sendFile size available true botApiOk mtOk).1.count .mtprotoCall = 1 ∧
      (sendFile size available true botApiOk mtOk).1.count .botApiSend = 0 ∧
      (sendFile size available true botApiOk mtOk).1.countP chunkEvent = 0) := by
  constructor
  · intro h
    have hs : (sendFile size available true botApiOk mtOk).1 =
        [.botApiSend] := by
      simp [sendFile, if_pos h]
    have hc : chooseStrategy size available = .Direct := by
      simp [chooseStrategy, if_pos h]
    rw [hs, hc]
    exact ⟨rfl, by decide⟩
  · intro h hav
    have h' : ¬ size ≤ botApiLimit := not_le.mpr h
    have hs : (sendFile size available true botApiOk mtOk).1 =
        [.message, .mtprotoCall, .deleteMsg] := by
      simp [sendFile, if_neg h', hav]
    have hc : chooseStrategy size available = .SecondaryLarge := by
      simp [chooseStrategy, if_neg h', hav]
    rw [hs, hc]
    exact ⟨rfl, by decide⟩

/-- Witness for C4 at concrete inputs: a 10 MB file routes Direct with one
Bot API send, a 500 MB file with the secondary available routes
SecondaryLarge with one MTProto invocation and no chunk events. -/
theorem c4_strategy_routing_witness :
    (chooseStrategy (10 * 1024 * 1024) false = .Direct ∧
      (sendFile (10 * 1024 * 1024) false true true true).1.count .botApiSend = 1) ∧
    (chooseStrategy (500 * 1024 * 1024) true = .SecondaryLarge ∧
      (sendFile (500 * 1024 * 1024) true true true true).1.count .mtprotoCall = 1 ∧
      (sendFile (500 * 1024 * 1024) true true true true).1.countP chunkEvent = 0) := by
  have h1 := c4_strategy_routing (10 * 1024 * 1024) false true true
  have h2 := c4_strategy_routing (500 * 1024 * 1024) true true true
  have g1 := h1.1 (by decide)
  have g2 := h2.2 (by decide) rfl
  exact ⟨⟨g1.1, g1.2.1⟩, g2.1, g2.2.1, g2.2.2.2⟩

/-- C1 (failing-input evaluation): for a 100 MB staged file with the
secondary transport unavailable and a context present, the router rejects
the request: it emits only an advisory message, performs zero chunk sends
(the spec mandates ceil(100MB/45MB) = 3), and returns failure.  The
SplitFallback path is never taken. -/
theorem c1_no_split_fallback :
    chooseStrategy (100 * 1024 * 1024) false = .Reject ∧
    sendFile (100 * 1024 * 1024) false true true true = ([.message], false) ∧
    (sendFile (100 * 1024 * 1024) false true true true).1.countP chunkEvent = 0 ∧
    specChunkCount (100 * 1024 * 1024) = 3 := by
  refine ⟨by decide, by decide, by decide, by decide⟩

/-- C8 counterexample: for a 20 MB file the code computes an explicit
timeout of 200 s, while the claimed formula (base 60 s plus 10 s per MB,
capped at 300 s) gives 260 s. -/
theorem c8_counterexample_formula :
    send_file_to_telegram (20 * 1024 * 1024) true =
      (some (.explicit 200), true) ∧
    specTimeoutC8 (20 * 1024 * 1024) = 260 ∧ (200 : Nat) ≠ 260 := by
  refine ⟨by decide, by decide, by decide⟩

/-- C8 amended: in send_file_to_telegram, a file over 10 MB and at most
50 MB is sent with the explicit timeout min(300, max(60, 10 * floor(size
in MB))) — a 60 s floor and a 300 s cap, 10 s per full megabyte in
between — while files of at most 10 MB use the library default timeouts. -/
theorem c8_amended_timeout (size : Nat) (sendOk : Bool)
    (h50 : size ≤ botApiLimit) :
    (10 * 1024 * 1024 < size →
      (send_file_to_telegram size sendOk).1 =
        some (.explicit (min 300 (max 60 (10 * (size / (1024 * 1024)))))) ∧
      (∀ t, (send_file_to_telegram size sendOk).1 = some (.explicit t) →
        60 ≤ t ∧ t ≤ 300)) ∧
    (size ≤ 10 * 1024 * 1024 →
      (send_file_to_telegram size sendOk).1 = some .libraryDefault) := by
  have hnot : ¬ botApiLimit < size := not_lt.mpr h50
  constructor
  · intro h10
    simp only [send_file_to_telegram, if_neg hnot, sendDocumentTimeout,
      if_pos h10]
    constructor
    · rw [Nat.mul_comm (size / (1024 * 1024)) 10]
    · intro t ht
      have ht' : t = min 300 (max 60 (size / (1024 * 1024) * 10)) := by
        injection ht with h1
        injection h1 with h2
        omega
      omega
  · intro h10
    have hnot10 : ¬ 10 * 1024 * 1024 < size := not_lt.mpr h10
    simp [send_file_to_telegram, if_neg hnot, sendDocumentTimeout,
      if_neg hnot10]

/-- Witness for C8 amended at a concrete input: a 20 MB file gets the
explicit 200 s timeout, which is between 60 and 300. -/
theorem c8_amended_timeout_witness :
    (send_file_to_telegram (20 * 1024 * 1024) true).1 =
      some (.explicit (min 300 (max 60 (10 * (20 * 1024 * 1024 / (1024 * 1024)))))) := by
  exact ((c8_amended_timeout (20 * 1024 * 1024) true (by decide)).1 (by decide)).1

/-- C9: for every sequence of rate-limit signals followed by a terminal
response, send_large_document sleeps once per signal for exactly the
mandated duration, makes exactly one retry per signal (attempts = signals
+ 1), succeeds iff the terminal response is ok, and performs no retry
after a permanent rejection such as FilePartMissing. -/
theorem c9_floodwait_retry (waits : List Nat) (final : MtResp)
    (rest : List MtResp) (hfw : ∀ s, final ≠ .floodWait s) :
    (send_large_document (waits.map .floodWait ++ final :: rest)).sleeps = waits ∧
    (send_large_document (waits.map .floodWait ++ final :: rest)).attempts =
      waits.length + 1 ∧
    ((send_large_document (waits.map .floodWait ++ final :: rest)).success = true ↔
      final = .ok) := by
  induction waits with
  | nil =>
    simp only [List.map_nil, List.nil_append]
    cases final with
    | ok => exact ⟨rfl, rfl, by simp [send_large_document]⟩
    | floodWait s => exact absurd rfl (hfw s)
    | filePartMissing => exact ⟨rfl, rfl, by simp [send_large_document]⟩
    | otherErr => exact ⟨rfl, rfl, by simp [send_large_document]⟩
  | cons w ws ih =>
    simp only [List.map_cons, List.cons_append, send_large_document,
      List.append_eq]
    refine ⟨?_, ?_, ?_⟩
    · rw [ih.1]
    · rw [ih.2.1]; simp [List.length_cons]
    · exact ih.2.2

/-- Witness for C9 at a concrete input: two rate-limit signals of 3 s and
5 s followed by a permanent rejection give sleeps [3, 5], three attempts,
and failure. -/
theorem c9_floodwait_retry_witness :
    (send_large_document
      ([3, 5].map .floodWait ++ MtResp.filePartMissing :: [])).sleeps = [3, 5] ∧
    (send_large_document
      ([3, 5].map .floodWait ++ MtResp.filePartMissing :: [])).attempts = 3 ∧
    ((send_large_document
      ([3, 5].map .floodWait ++ MtResp.filePartMissing :: [])).success = true ↔
      MtResp.filePartMissing = MtResp.ok) := by
  exact c9_floodwait_retry [3, 5] .filePartMissing [] (fun s h => by cases h)

/-- One item of the streamed GET response body: a chunk of bytes, or a
network failure (connection reset / timeout / cancellation) at that point
of the stream. -/
inductive StreamItem
  | bytes (chunk : List Nat)
  | netErr
deriving DecidableEq

/-- Failure modes of FileHandler.download_file. -/
inductive DlError
  | sizeExceeded
  | hardCapExceeded
  | httpError
  | networkError
deriving DecidableEq

/-- Absolute hard ceiling checked against the HEAD-advertised size:
MAX_LARGE_FILE_SIZE = 2 * 1024 * 1024 * 1024. -/
def hardCap : Nat := 2 * 1024 * 1024 * 1024

/-- Is the stream item a byte chunk? -/
def isBytes : StreamItem → Bool
  | .bytes _ => true
  | .netErr => false

/-- Byte length contributed by a stream item. -/
def itemLen : StreamItem → Nat
  | .bytes c => c.length
  | .netErr => 0

/-- The streaming loop of FileHandler.download_file: per received chunk,
add its length to the running total, and if the total exceeds max_size,
remove the partial file and fail with the size error; a network failure
mid-stream propagates with the partial file left in place.  Returns the
outcome and whether a file is present in the scratch directory when
control leaves the loop. -/
def streamLoop (maxSize : Nat) :
    Nat → List Nat → List StreamItem → Except DlError (List Nat) × Bool
  | _, written, [] => (.ok written, true)
  | acc, written, .bytes c :: rest =>
    if maxSize < acc + c.length then (.error .sizeExceeded, false)
    else streamLoop maxSize (acc + c.length) (written ++ c) rest
  | _, _, .netErr :: _ => (.error .networkError, true)

/-- FileHandler.download_file: HEAD-advertised size against the 2 GB hard
cap, GET status check, GET content-length against max_size, then the
streaming loop.  `headSize`/`contentLength` are the advertised sizes
(none when the header is absent); the falsy-zero Python checks are
preserved by comparing against `getD 0`.  Second component: whether a
file is left in the scratch directory when the call returns or raises. -/
def download_file (maxSize : Nat) (headSize : Option Nat) (status : Nat)
    (contentLength : Option Nat) (stream : List StreamItem) :
    Except DlError (List Nat) × Bool :=
  if hardCap < headSize.getD 0 then (.error .hardCapExceeded, false)
  else if status ≠ 200 then (.error .httpError, false)
  else if maxSize < contentLength.getD 0 then (.error .sizeExceeded, false)
  else streamLoop maxSize 0 [] stream

/-- Outcome of FileHandler.download_and_send_file: `returns` is the value
handed to the caller (`Except.error` marks an exception escaping the
function), `leftover` whether a file of this request is still in the
scratch directory after control returns. -/
structure PipeOutcome where
  returns : Except Unit Bool
  leftover : Bool

/-- FileHandler.download_and_send_file: download, then send through the
hybrid handler (which returns a boolean and swallows its own errors), then
record the transfer; any exception from download or recording is caught and
answered with an error-notification message to the chat — whose own send
may raise, in which case that exception escapes.  The finally block removes
the staged file only when the local temp path was assigned, i.e. only when
download_file returned instead of raising. -/
def download_and_send_file (maxSize : Nat) (headSize : Option Nat)
    (status : Nat) (contentLength : Option Nat) (stream : List StreamItem)
    (sendOk recordOk notifyOk : Bool) : PipeOutcome :=
  match download_file maxSize headSize status contentLength stream with
  | (.ok _, _) =>
    if sendOk then
      if recordOk then ⟨.ok true, false⟩
      else if notifyOk then ⟨.ok false, false⟩
      else ⟨.error (), false⟩
    else ⟨.ok false, false⟩
  | (.error _, left) =>
    if notifyOk then ⟨.ok false, left⟩
    else ⟨.error (), left⟩

/-- C3 helper: if the cumulative streamed bytes overflow max_size before
any network failure, the loop fails with the size error and removes the
partial file. -/
theorem streamLoop_overflow (maxSize : Nat) :
    ∀ (stream : List StreamItem) (acc : Nat) (written : List Nat),
      acc ≤ maxSize →
      maxSize < acc + ((stream.takeWhile isBytes).map itemLen).sum →
      streamLoop maxSize acc written stream = (.error .sizeExceeded, false) := by
  intro stream
  induction stream with
  | nil =>
    intro acc written hacc hover
    simp [List.takeWhile] at hover
    omega
  | cons item rest ih =>
    intro acc written hacc hover
    cases item with
    | bytes c =>
      simp only [List.takeWhile_cons, isBytes, if_pos, List.map_cons,
        List.sum_cons, itemLen] at hover
      by_cases h : maxSize < acc + c.length
      · simp [streamLoop, if_pos h]
      · have h' : acc + c.length ≤ maxSize := not_lt.mp h
        simp only [streamLoop, if_neg h]
        exact ih (acc + c.length) (written ++ c) h' (by omega)
    | netErr =>
      simp [List.takeWhile_cons, isBytes] at hover
      omega

/-- C3: whenever the download reaches the streaming phase (HEAD size within
the hard cap, status 200, advertised content length absent or within the
ceiling) and the bytes actually streamed before any network failure exceed
the caller's ceiling, download_file fails with the size error and no
partial file is left behind — independent of the advertised length. -/
theorem c3_midstream_size_exceeded_cleanup (maxSize : Nat)
    (headSize contentLength : Option Nat) (stream : List StreamItem)
    (hhead : headSize.getD 0 ≤ hardCap)
    (hadv : contentLength.getD 0 ≤ maxSize)
    (hover : maxSize < ((stream.takeWhile isBytes).map itemLen).sum) :
    download_file maxSize headSize 200 contentLength stream =
      (.error .sizeExceeded, false) := by
  have h1 : ¬ hardCap < headSize.getD 0 := not_lt.mpr hhead
  have h2 : ¬ (200 : Nat) ≠ 200 := by omega
  have h3 : ¬ maxSize < contentLength.getD 0 := not_lt.mpr hadv
  simp only [download_file, if_neg h1, if_neg h2, if_neg h3]
  exact streamLoop_overflow maxSize stream 0 [] (Nat.zero_le _) (by omega)

/-- Witness for C3 at a concrete input: ceiling 2, no advertised sizes, a
single 3-byte chunk streamed — the download fails with the size error and
leaves no file. -/
theorem c3_midstream_size_exceeded_cleanup_witness :
    download_file 2 none 200 none [.bytes [9, 9, 9]] =
      (.error .sizeExceeded, false) := by
  exact c3_midstream_size_exceeded_cleanup 2 none none [.bytes [9, 9, 9]]
    (by decide) (by decide) (by decide)

/-- C2 (failing-input evaluation): a network failure in the middle of the
streaming download — here after one byte has been written — makes
download_file raise the network error with the partial file still present,
and download_and_send_file then returns False with the partial file still
in the scratch directory: the cleanup in its finally block never sees the
path, because the local variable is only assigned when download_file
returns. -/
theorem c2_leftover_file_on_netfail :
    download_file (50 * 1024 * 1024) none 200 none [.bytes [7], .netErr] =
      (.error .networkError, true) ∧
    download_and_send_file (50 * 1024 * 1024) none 200 none
      [.bytes [7], .netErr] true true true = ⟨.ok false, true⟩ := by
  refine ⟨rfl, rfl⟩

/-- C10 counterexample: when the download raises (HTTP 404 here) and the
error-notification send itself raises, download_and_send_file propagates
that exception to its caller instead of returning a boolean. -/
theorem c10_counterexample_notify_raises :
    download_and_send_file 100 none 404 none [] true true false =
      ⟨.error (), false⟩ := rfl

/-- C10 amended: download_and_send_file returns a boolean for every
combination of download outcome, send result and record result — every
internal failure is converted into a False return after the finally-block
cleanup — provided the error-notification message sends themselves
succeed; a notification send that raises is the one path that escapes. -/
theorem c10_amended_total (maxSize : Nat) (headSize : Option Nat)
    (status : Nat) (contentLength : Option Nat) (stream : List StreamItem)
    (sendOk recordOk : Bool) :
    ∃ b : Bool,
      (download_and_send_file maxSize headSize status contentLength stream
        sendOk recordOk true).returns = .ok b ∧
      ((download_file maxSize headSize status contentLength stream).1.isOk =
        false → b = false) := by
  unfold download_and_send_file
  cases hdl : download_file maxSize headSize status contentLength stream with
  | mk res left =>
    cases res with
    | ok v =>
      cases sendOk with
      | true =>
        cases recordOk with
        | true => exact ⟨true, rfl, by intro h; simp [Except.isOk, Except.toBool] at h⟩
        | false => exact ⟨false, rfl, fun _ => rfl⟩
      | false => exact ⟨false, rfl, fun _ => rfl⟩
    | error e => exact ⟨false, rfl, fun _ => rfl⟩

/-- Witness for C10 amended at a concrete input: with notification sends
succeeding, a failed download (HTTP 404) yields the boolean False. -/
theorem c10_amended_total_witness :
    ∃ b : Bool,
      (download_and_send_file 100 none 404 none [] true true true).returns =
        .ok b ∧
      ((download_file 100 none 404 none []).1.isOk = false → b = false) := by
  exact c10_amended_total 100 none 404 none [] true true

/-- Characters replaced by an underscore in sanitize_filename
(re.sub of the class <>:\x22/\x5c|?* ). -/
def invalidChars : List Char := ['<', '>', ':', '\"', '/', '\\', '|', '?', '*']

/-- Is the character in the replaced class? -/
def isInvalidChar (c : Char) : Bool := invalidChars.contains c

/-- Control characters removed by sanitize_filename: \x00-\x1f and \x7f. -/
def isControlChar (c : Char) : Bool := c.toNat ≤ 31 || c.toNat == 127

/-- ASCII whitespace stripped by Python str.strip(). -/
def isPySpace (c : Char) : Bool :=
  [' ', '\t', '\n', '\r', '\x0b', '\x0c'].contains c

/-- Python str.strip(): drop whitespace from both ends. -/
def pyStrip (l : List Char) : List Char :=
  ((l.dropWhile isPySpace).reverse.dropWhile isPySpace).reverse

/-- Index of the last dot of the name, if any. -/
def lastDotIdx (l : List Char) : Option Nat :=
  match l.reverse.findIdx? (fun c => c == '.') with
  | none => none
  | some i => some (l.length - 1 - i)

/-- os.path.splitext on a name without path separators: split at the last
dot unless every character before it is itself a dot (leading-dot names
such as .bashrc have no extension). -/
def splitext (l : List Char) : List Char × List Char :=
  match lastDotIdx l with
  | none => (l, [])
  | some d =>
    if (l.take d).all (fun c => c == '.') then (l, [])
    else (l.take d, l.drop d)

/-- Python slice l[:n] including the negative-index case. -/
def pySliceTo (l : List Char) (n : Int) : List Char :=
  if 0 ≤ n then l.take n.toNat else l.take (l.length - n.natAbs)

/-- The fallback name substituted for an empty result. -/
def downloadBin : List Char :=
  ['d', 'o', 'w', 'n', 'l', 'o', 'a', 'd', '.', 'b', 'i', 'n']

/-- Length cap of sanitize_filename: names over 255 characters are cut to
name[:255 - len(ext)] + ext. -/
def sanitizeStep3 (s : List Char) : List Char :=
  if 255 < s.length then
    pySliceTo (splitext s).1 (255 - Int.ofNat (splitext s).2.length) ++
      (splitext s).2
  else s

/-- Empty-result fallback of sanitize_filename. -/
def sanitizeStep4 (s : List Char) : List Char :=
  if pyStrip s = [] then downloadBin else s

/-- utils.sanitize_filename: replace illegal characters by underscores,
drop control characters, cap the length preserving the extension,
substitute a default for an empty result, and strip whitespace. -/
def sanitize_filename (l : List Char) : List Char :=
  pyStrip (sanitizeStep4 (sanitizeStep3
    ((l.map (fun c => if isInvalidChar c then '_' else c)).filter
      (fun c => !isControlChar c))))

/-- Members of a dropWhile are members of the list. -/
theorem dropWhile_subset_my {α : Type} (p : α → Bool) (l : List α) :
    ∀ x ∈ l.dropWhile p, x ∈ l := by
  induction l with
  | nil => simp
  | cons a t ih =>
    intro x hx
    rw [List.dropWhile_cons] at hx
    by_cases h : p a = true
    · rw [if_pos h] at hx
      exact List.mem_cons_of_mem a (ih x hx)
    · rw [if_neg h] at hx
      exact hx

/-- Members of a stripped list are members of the list. -/
theorem pyStrip_subset (l : List Char) : ∀ x ∈ pyStrip l, x ∈ l := by
  intro x hx
  unfold pyStrip at hx
  rw [List.mem_reverse] at hx
  have h1 := dropWhile_subset_my isPySpace (l.dropWhile isPySpace).reverse x hx
  rw [List.mem_reverse] at h1
  exact dropWhile_subset_my isPySpace l x h1

/-- dropWhile is idempotent. -/
theorem dropWhile_idem_my {α : Type} (p : α → Bool) (l : List α) :
    (l.dropWhile p).dropWhile p = l.dropWhile p := by
  induction l with
  | nil => simp
  | cons a t ih =>
    rw [List.dropWhile_cons]
    by_cases h : p a = true
    · rw [if_pos h]
      exact ih
    · rw [if_neg h, List.dropWhile_cons, if_neg h]

/-- The head remaining after dropWhile fails the predicate. -/
theorem head_dropWhile_false {α : Type} (p : α → Bool) (l : List α) (a : α)
    (t : List α) (h : l.dropWhile p = a :: t) : p a = false := by
  induction l with
  | nil => simp at h
  | cons b u ih =>
    rw [List.dropWhile_cons] at h
    by_cases hb : p b = true
    · rw [if_pos hb] at h
      exact ih h
    · rw [if_neg hb] at h
      injection h with h1 _
      rw [← h1]
      exact Bool.eq_false_iff.mpr hb

/-- dropWhile yields a suffix. -/
theorem dropWhile_isSuffix {α : Type} (p : α → Bool) (l : List α) :
    l.dropWhile p <:+ l := by
  induction l with
  | nil => exact ⟨[], rfl⟩
  | cons a t ih =>
    rw [List.dropWhile_cons]
    by_cases h : p a = true
    · rw [if_pos h]
      obtain ⟨s, hs⟩ := ih
      exact ⟨a :: s, by rw [List.cons_append, hs]⟩
    · rw [if_neg h]

/-- Stripping from the right yields a prefix. -/
theorem backStrip_leading {α : Type} (p : α → Bool) (l : List α) :
    (l.reverse.dropWhile p).reverse <+: l := by
  have h := dropWhile_isSuffix p l.reverse
  have h2 := Iff.mpr List.reverse_prefix h
  rwa [List.reverse_reverse] at h2

/-- pyStrip is idempotent. -/
theorem pyStrip_idem (l : List Char) : pyStrip (pyStrip l) = pyStrip l := by
  have hz' : ((l.dropWhile isPySpace).reverse.dropWhile isPySpace).reverse =
      pyStrip l := rfl
  have hfront : (pyStrip l).dropWhile isPySpace = pyStrip l := by
    cases hc : pyStrip l with
    | nil => rfl
    | cons a t =>
      have hpre : pyStrip l <+: l.dropWhile isPySpace := by
        rw [← hz']
        exact backStrip_leading _ _
      rw [hc] at hpre
      obtain ⟨rest, hrest⟩ := hpre
      have hpa : isPySpace a = false := by
        refine head_dropWhile_false isPySpace l a (t ++ rest) ?_
        rw [← hrest, List.cons_append]
      rw [List.dropWhile_cons, hpa]
      simp
  have hback : ((pyStrip l).reverse.dropWhile isPySpace).reverse = pyStrip l := by
    have hr : (pyStrip l).reverse =
        (l.dropWhile isPySpace).reverse.dropWhile isPySpace := by
      rw [← hz', List.reverse_reverse]
    rw [hr, dropWhile_idem_my, ← hr, List.reverse_reverse]
  show (((pyStrip l).dropWhile isPySpace).reverse.dropWhile isPySpace).reverse =
    pyStrip l
  rw [hfront, hback]

/-- splitext when the name has no dot. -/
theorem splitext_of_none (l : List Char) (h : lastDotIdx l = none) :
    splitext l = (l, []) := by
  unfold splitext
  rw [h]

/-- splitext when the last dot is at index d. -/
theorem splitext_of_some (l : List Char) (d : Nat)
    (h : lastDotIdx l = some d) :
    splitext l = if (l.take d).all (fun c => c == '.') then (l, [])
      else (l.take d, l.drop d) := by
  unfold splitext
  rw [h]

/-- The name part of splitext is drawn from the input. -/
theorem splitext_fst_subset (l : List Char) : ∀ x ∈ (splitext l).1, x ∈ l := by
  cases hld : lastDotIdx l with
  | none =>
    rw [splitext_of_none l hld]
    intro x hx
    exact hx
  | some d =>
    rw [splitext_of_some l d hld]
    by_cases h : (l.take d).all (fun c => c == '.') = true
    · rw [if_pos h]
      intro x hx
      exact hx
    · rw [if_neg h]
      intro x hx
      exact List.take_subset d l hx

/-- The extension part of splitext is drawn from the input. -/
theorem splitext_snd_subset (l : List Char) : ∀ x ∈ (splitext l).2, x ∈ l := by
  cases hld : lastDotIdx l with
  | none =>
    rw [splitext_of_none l hld]
    intro x hx
    simp at hx
  | some d =>
    rw [splitext_of_some l d hld]
    by_cases h : (l.take d).all (fun c => c == '.') = true
    · rw [if_pos h]
      intro x hx
      simp at hx
    · rw [if_neg h]
      intro x hx
      exact List.drop_subset d l hx

/-- The length-cap step draws its characters from the input. -/
theorem sanitizeStep3_subset (s : List Char) :
    ∀ x ∈ sanitizeStep3 s, x ∈ s := by
  unfold sanitizeStep3
  by_cases h : 255 < s.length
  · rw [if_pos h]
    intro x hx
    rcases List.mem_append.mp hx with h1 | h2
    · refine splitext_fst_subset s x ?_
      unfold pySliceTo at h1
      by_cases hn : (0 : Int) ≤ 255 - Int.ofNat (splitext s).2.length
      · rw [if_pos hn] at h1
        exact List.take_subset _ _ h1
      · rw [if_neg hn] at h1
        exact List.take_subset _ _ h1
    · exact splitext_snd_subset s x h2
  · rw [if_neg h]
    intro x hx
    exact hx

/-- The empty-fallback step yields either the default name or the input. -/
theorem sanitizeStep4_cases {s : List Char} {x : Char}
    (h : x ∈ sanitizeStep4 s) : x ∈ downloadBin ∨ x ∈ s := by
  unfold sanitizeStep4 at h
  by_cases he : pyStrip s = []
  · rw [if_pos he] at h
    exact Or.inl h
  · rw [if_neg he] at h
    exact Or.inr h

/-- Every character of a sanitized name is neither illegal nor a control
character. -/
theorem mem_sanitize_clean (l : List Char) :
    ∀ c ∈ sanitize_filename l,
      isInvalidChar c = false ∧ isControlChar c = false := by
  intro c hc
  unfold sanitize_filename at hc
  have hc4 := pyStrip_subset _ c hc
  rcases sanitizeStep4_cases hc4 with hbin | hs3
  · have hdl : ∀ x ∈ downloadBin,
        isInvalidChar x = false ∧ isControlChar x = false := by decide
    exact hdl c hbin
  · obtain ⟨hmem, hctl⟩ := List.mem_filter.mp (sanitizeStep3_subset _ c hs3)
    obtain ⟨a, ha, hfa⟩ := List.mem_map.mp hmem
    constructor
    · by_cases hia : isInvalidChar a = true
      · rw [if_pos hia] at hfa
        rw [← hfa]
        decide
      · rw [if_neg hia] at hfa
        rw [← hfa]
        exact Bool.eq_false_iff.mpr hia
    · simpa using hctl

/-- The sanitized name is never empty. -/
theorem sanitize_ne_nil (l : List Char) : sanitize_filename l ≠ [] := by
  unfold sanitize_filename sanitizeStep4
  by_cases he : pyStrip (sanitizeStep3
      ((l.map (fun c => if isInvalidChar c then '_' else c)).filter
        (fun c => !isControlChar c))) = []
  · rw [if_pos he]
    decide
  · rw [if_neg he]
    exact he

/-- The illegal-character substitution fixes a clean list. -/
theorem map_sanitize_fix (l : List Char)
    (h : ∀ c ∈ l, isInvalidChar c = false) :
    l.map (fun c => if isInvalidChar c then '_' else c) = l := by
  induction l with
  | nil => rfl
  | cons a t ih =>
    rw [List.map_cons]
    have hfa : ¬ isInvalidChar a = true := by
      rw [h a (List.mem_cons_self a t)]
      exact Bool.false_ne_true
    rw [if_neg hfa, ih (fun c hc => h c (List.mem_cons_of_mem a hc))]

/-- The control-character filter fixes a clean list. -/
theorem filter_sanitize_fix (l : List Char)
    (h : ∀ c ∈ l, isControlChar c = false) :
    l.filter (fun c => !isControlChar c) = l := by
  induction l with
  | nil => rfl
  | cons a t ih =>
    have hfa : (!isControlChar a) = true := by
      rw [h a (List.mem_cons_self a t)]
      rfl
    simp only [List.filter_cons]
    rw [if_pos hfa, ih (fun c hc => h c (List.mem_cons_of_mem a hc))]

/-- A clean, stripped, nonempty name of at most 255 characters is a fixed
point of sanitize_filename. -/
theorem sanitize_fixed_point (r : List Char)
    (hinv : ∀ c ∈ r, isInvalidChar c = false)
    (hctl : ∀ c ∈ r, isControlChar c = false)
    (hlen : r.length ≤ 255)
    (hstrip : pyStrip r = r)
    (hne : r ≠ []) :
    sanitize_filename r = r := by
  unfold sanitize_filename
  rw [map_sanitize_fix r hinv, filter_sanitize_fix r hctl]
  have h3 : sanitizeStep3 r = r := by
    unfold sanitizeStep3
    rw [if_neg (by omega)]
  rw [h3]
  have h4 : sanitizeStep4 r = r := by
    unfold sanitizeStep4
    rw [if_neg (by rw [hstrip]; exact hne)]
  rw [h4, hstrip]

/-- The concrete name a.bbbb…b (260 b characters after the dot) on which
sanitization is not idempotent. -/
def c7Input : List Char := 'a' :: '.' :: List.replicate 260 'b'

set_option maxRecDepth 100000 in
/-- C7 counterexample: sanitization is not idempotent.  For a 262-character
name whose extension alone exceeds the 255-character cap, the first
application returns a 261-character name (the negative slice empties the
stem and the overlong extension is kept), and the second application
truncates it again, giving a different result. -/
theorem c7_counterexample_long_extension :
    sanitize_filename (sanitize_filename c7Input) ≠ sanitize_filename c7Input := by
  decide

/-- C7 amended: sanitize_filename never returns an empty name, and it is
idempotent on every input whose sanitized form is at most 255 characters
long — equivalently, except when the extension alone overflows the
255-character cap, the only case in which the first pass can return an
overlong name. -/
theorem c7_amended_idempotent_nonempty (l : List Char) :
    sanitize_filename l ≠ [] ∧
    ((sanitize_filename l).length ≤ 255 →
      sanitize_filename (sanitize_filename l) = sanitize_filename l) := by
  refine ⟨sanitize_ne_nil l, ?_⟩
  intro hlen
  have hstrip : pyStrip (sanitize_filename l) = sanitize_filename l :=
    pyStrip_idem _
  exact sanitize_fixed_point (sanitize_filename l)
    (fun c hc => (mem_sanitize_clean l c hc).1)
    (fun c hc => (mem_sanitize_clean l c hc).2)
    hlen hstrip (sanitize_ne_nil l)

/-- Witness for C7 amended at a concrete input: ab.txt sanitizes to a
nonempty name and re-sanitizing it changes nothing. -/
theorem c7_amended_idempotent_nonempty_witness :
    sanitize_filename (['a', 'b', '.', 't', 'x', 't']) ≠ [] ∧
    sanitize_filename (sanitize_filename (['a', 'b', '.', 't', 'x', 't'])) =
      sanitize_filename (['a', 'b', '.', 't', 'x', 't']) := by
  have h := c7_amended_idempotent_nonempty ['a', 'b', '.', 't', 'x', 't']
  exact ⟨h.1, h.2 (by decide)⟩

/-- The read loop of FileHandler.split_file: take chunk_size bytes at a
time until the file is exhausted.  The fuel argument bounds the number of
iterations; every iteration with a positive chunk size consumes at least
one byte, so fuel = length is enough. -/
def splitBytesAux (chunkSize : Nat) : Nat → List Nat → List (List Nat)
  | _, [] => []
  | 0, _ => []
  | fuel + 1, data =>
    data.take chunkSize :: splitBytesAux chunkSize fuel (data.drop chunkSize)

/-- FileHandler.split_file's partitioning of the byte stream: successive
chunk_size-byte slices (a zero chunk size reads nothing and produces no
chunks, as infile.read(0) is immediately empty). -/
def splitBytes (chunkSize : Nat) (data : List Nat) : List (List Nat) :=
  if chunkSize = 0 then [] else splitBytesAux chunkSize data.length data

/-- Little-endian decimal digits with fuel (structural so that concrete
evaluation reduces). -/
def decDigitsAux : Nat → Nat → List Nat
  | 0, _ => []
  | _ + 1, 0 => []
  | fuel + 1, n + 1 => ((n + 1) % 10) :: decDigitsAux fuel ((n + 1) / 10)

/-- Most-significant-first decimal digits of a number. -/
def decDigits (k : Nat) : List Nat :=
  if k = 0 then [0] else (decDigitsAux k k).reverse

/-- The character of a decimal digit. -/
def digitChar (d : Nat) : Char := Char.ofNat (48 + d)

/-- Python format spec 03d: the decimal representation left-padded with
zeros to at least three digits. -/
def pad3 (k : Nat) : List Char :=
  (List.replicate (3 - (decDigits k).length) 0 ++ decDigits k).map digitChar

/-- The literal .part infix of chunk names. -/
def dotPartChars : List Char := ['.', 'p', 'a', 'r', 't']

/-- The chunk naming rule of FileHandler.split_file: chunk k of name.ext
is name.partKKK.ext with k zero-padded to three digits. -/
def chunkName (filename : List Char) (k : Nat) : List Char :=
  (splitext filename).1 ++ (dotPartChars ++ (pad3 k ++ (splitext filename).2))

/-- FileHandler.split_file: the ordered chunk set, each chunk paired with
its filename; chunk numbering starts at 1. -/
def split_file (chunkSize : Nat) (filename : List Char) (data : List Nat) :
    List (List Nat × List Char) :=
  (splitBytes chunkSize data).enum.map
    (fun p => (p.2, chunkName filename (p.1 + 1)))

/-- Concatenating the slices of the read loop restores the stream. -/
theorem join_splitBytesAux (chunkSize : Nat) (hc : 0 < chunkSize) :
    ∀ (fuel : Nat) (data : List Nat), data.length ≤ fuel →
      (splitBytesAux chunkSize fuel data).flatten = data := by
  intro fuel
  induction fuel with
  | zero =>
    intro data hlen
    have hd : data = [] := List.eq_nil_of_length_eq_zero (Nat.le_zero.mp hlen)
    subst hd
    rfl
  | succ m ih =>
    intro data hlen
    cases data with
    | nil => rfl
    | cons a rest =>
      show ((a :: rest).take chunkSize ::
        splitBytesAux chunkSize m ((a :: rest).drop chunkSize)).flatten = a :: rest
      rw [List.flatten_cons]
      rw [ih ((a :: rest).drop chunkSize)
        (by
          rw [List.length_drop]
          simp only [List.length_cons] at hlen ⊢
          omega)]
      exact List.take_append_drop chunkSize (a :: rest)

/-- Concatenating the chunks restores the original bytes. -/
theorem join_splitBytes (chunkSize : Nat) (hc : 0 < chunkSize)
    (data : List Nat) : (splitBytes chunkSize data).flatten = data := by
  unfold splitBytes
  rw [if_neg (Nat.pos_iff_ne_zero.mp hc)]
  exact join_splitBytesAux chunkSize hc data.length data (le_refl _)

set_option maxRecDepth 40000 in
/-- For numbers up to 999, pad3 is exactly the three decimal digits. -/
theorem pad3_eq_digits : ∀ k < 1000, pad3 k =
    [digitChar (k / 100), digitChar (k / 10 % 10), digitChar (k % 10)] := by
  decide

/-- Digit characters are ordered like the digits. -/
theorem digitChar_lt : ∀ a < 10, ∀ b < 10, a < b →
    digitChar a < digitChar b := by
  decide

/-- The padded three-digit strings are lexicographically ordered like the
numbers, up to 999. -/
theorem pad3_lt (i j : Nat) (hij : i < j) (hj : j ≤ 999) :
    List.Lex (· < ·) (pad3 i) (pad3 j) := by
  rw [pad3_eq_digits i (by omega), pad3_eq_digits j (by omega)]
  have hd : i / 100 < j / 100 ∨ (i / 100 = j / 100 ∧
      (i / 10 % 10 < j / 10 % 10 ∨
        (i / 10 % 10 = j / 10 % 10 ∧ i % 10 < j % 10))) := by
    omega
  rcases hd with h1 | ⟨h1, h2 | ⟨h2, h3⟩⟩
  · exact List.Lex.rel (digitChar_lt _ (by omega) _ (by omega) h1)
  · rw [h1]
    exact List.Lex.cons (List.Lex.rel (digitChar_lt _ (by omega) _ (by omega) h2))
  · rw [h1, h2]
    exact List.Lex.cons (List.Lex.cons
      (List.Lex.rel (digitChar_lt _ (by omega) _ (by omega) h3)))

/-- A common prefix preserves lexicographic order. -/
theorem lex_append_left {α : Type} {r : α → α → Prop} (p : List α)
    {l1 l2 : List α} (h : List.Lex r l1 l2) :
    List.Lex r (p ++ l1) (p ++ l2) := by
  induction p with
  | nil => exact h
  | cons a t ih => exact List.Lex.cons ih

/-- Appending suffixes to equal-length lists preserves strict
lexicographic order. -/
theorem lex_append_of_length_eq {α : Type} {r : α → α → Prop} :
    ∀ {l1 l2 : List α} (s t : List α), l1.length = l2.length →
      List.Lex r l1 l2 → List.Lex r (l1 ++ s) (l2 ++ t) := by
  intro l1
  induction l1 with
  | nil =>
    intro l2 s t hlen h
    have hl2 : l2 = [] := List.eq_nil_of_length_eq_zero hlen.symm
    subst hl2
    cases h
  | cons a as ih =>
    intro l2 s t hlen h
    cases l2 with
    | nil => simp at hlen
    | cons b bs =>
      cases h with
      | rel hr => exact List.Lex.rel hr
      | cons h' => exact List.Lex.cons (ih s t (by simpa using hlen) h')

/-- Chunk names are lexicographically ordered like their indices (within
the three-digit range of the padding). -/
theorem chunkName_lt (filename : List Char) (i j : Nat) (hij : i < j)
    (hj : j ≤ 999) :
    List.Lex (· < ·) (chunkName filename i) (chunkName filename j) := by
  unfold chunkName
  apply lex_append_left
  apply lex_append_left
  refine lex_append_of_length_eq _ _ ?_ (pad3_lt i j hij hj)
  rw [pad3_eq_digits i (by omega), pad3_eq_digits j (by omega)]
  rfl

/-- C6: for every file content, filename and positive chunk size, the
i-th produced chunk (0-based position) is named by the rule chunk k =
name.partKKK.ext with k = i + 1 zero-padded to three digits, chunk names
are strictly increasing with the index (lexicographically, for the
three-digit indices the padding covers), and concatenating the chunks in
index order reproduces the original byte stream exactly. -/
theorem c6_split_naming_roundtrip (chunkSize : Nat) (filename : List Char)
    (data : List Nat) (hc : 0 < chunkSize) :
    ((split_file chunkSize filename data).map Prod.fst).flatten = data ∧
    (∀ (i : Nat) (h : i < (split_file chunkSize filename data).length),
      ((split_file chunkSize filename data)[i]).snd =
        chunkName filename (i + 1)) ∧
    (∀ (i j : Nat) (hi : i < (split_file chunkSize filename data).length)
      (hj : j < (split_file chunkSize filename data).length),
      i < j → j + 1 ≤ 999 →
      List.Lex (· < ·) ((split_file chunkSize filename data)[i]).snd
        ((split_file chunkSize filename data)[j]).snd) := by
  refine ⟨?_, ?_, ?_⟩
  · have hmap : (split_file chunkSize filename data).map Prod.fst =
        splitBytes chunkSize data := by
      unfold split_file
      rw [List.map_map]
      have hcomp : (Prod.fst ∘ fun p : Nat × List Nat =>
          (p.2, chunkName filename (p.1 + 1))) = Prod.snd := rfl
      rw [hcomp, List.enum_map_snd]
    rw [hmap]
    exact join_splitBytes chunkSize hc data
  · intro i h
    unfold split_file
    simp only [split_file, List.getElem_map, List.getElem_enum]
  · intro i j hi hj hij hj999
    have hni : ((split_file chunkSize filename data)[i]).snd =
        chunkName filename (i + 1) := by
      unfold split_file
      simp only [split_file, List.getElem_map, List.getElem_enum]
    have hnj : ((split_file chunkSize filename data)[j]).snd =
        chunkName filename (j + 1) := by
      unfold split_file
      simp only [split_file, List.getElem_map, List.getElem_enum]
    rw [hni, hnj]
    exact chunkName_lt filename (i + 1) (j + 1) (by omega) (by omega)

/-- Witness for C6 at a concrete input: splitting the three bytes 5 6 7 of
file a.t into 2-byte chunks gives chunks whose concatenation is the
original stream, whose first chunk is named a.part001.t, and whose names
increase from index 0 to 1. -/
theorem c6_split_naming_roundtrip_witness :
    ((split_file 2 ['a', '.', 't'] [5, 6, 7]).map Prod.fst).flatten = [5, 6, 7] := by
  exact (c6_split_naming_roundtrip 2 ['a', '.', 't'] [5, 6, 7] (by decide)).1

/-- The per-chunk send loop of FileHandler.split_and_send_file: every chunk
is attempted in index order (enumerate starting at 1); a failed send is
reported with a message and does not stop the loop; each chunk file is
removed in the finally block.  Returns (attempted indices, failed
indices). -/
def sendChunksLoop (sendOk : Nat → Bool) :
    Nat → List (List Nat × List Char) → List Nat × List Nat
  | _, [] => ([], [])
  | i, _ :: rest =>
    let r := sendChunksLoop sendOk (i + 1) rest
    (i :: r.1, if sendOk i then r.2 else i :: r.2)

/-- FileHandler.split_and_send_file: split, return False if the splitter
produced nothing, otherwise send every chunk best-effort and return True
regardless of how many chunk sends failed.  Result: (reported success,
attempted chunk indices, failed chunk indices). -/
def split_and_send_file (chunkSize : Nat) (filename : List Char)
    (data : List Nat) (sendOk : Nat → Bool) : Bool × List Nat × List Nat :=
  if split_file chunkSize filename data = [] then (false, [], [])
  else
    (true, (sendChunksLoop sendOk 1 (split_file chunkSize filename data)).1,
      (sendChunksLoop sendOk 1 (split_file chunkSize filename data)).2)

/-- C5 counterexample: with two chunks and every chunk send failing, the
request is still reported successful — success is not "at least one chunk
was sent". -/
theorem c5_counterexample_all_chunks_fail :
    (split_and_send_file 2 ['a', '.', 't'] [5, 6, 7] (fun _ => false)).1 = true ∧
    (split_and_send_file 2 ['a', '.', 't'] [5, 6, 7] (fun _ => false)).2.1 =
      [1, 2] ∧
    (split_and_send_file 2 ['a', '.', 't'] [5, 6, 7] (fun _ => false)).2.2 =
      [1, 2] := by
  refine ⟨rfl, rfl, rfl⟩

/-- The send loop attempts every chunk and reports exactly the failed
indices, counting from the start index. -/
theorem sendChunksLoop_spec (sendOk : Nat → Bool) :
    ∀ (chunks : List (List Nat × List Char)) (start : Nat),
      (sendChunksLoop sendOk start chunks).1 =
        (List.range chunks.length).map (· + start) ∧
      (sendChunksLoop sendOk start chunks).2 =
        ((List.range chunks.length).map (· + start)).filter
          (fun i => !sendOk i) := by
  intro chunks
  induction chunks with
  | nil =>
    intro start
    exact ⟨rfl, rfl⟩
  | cons c rest ih =>
    intro start
    have hrange : (List.range (rest.length + 1)).map (· + start) =
        start :: (List.range rest.length).map (· + (start + 1)) := by
      rw [List.range_succ_eq_map, List.map_cons, List.map_map]
      refine congrArg₂ List.cons (by simp) ?_
      refine List.map_congr_left ?_
      intro x _
      simp only [Function.comp]
      omega
    constructor
    · show start :: (sendChunksLoop sendOk (start + 1) rest).1 = _
      rw [List.length_cons, hrange, (ih (start + 1)).1]
    · show (if sendOk start then (sendChunksLoop sendOk (start + 1) rest).2
        else start :: (sendChunksLoop sendOk (start + 1) rest).2) = _
      rw [List.length_cons, hrange, List.filter_cons, (ih (start + 1)).2]
      by_cases hs : sendOk start = true
      · rw [if_pos hs, if_neg (by simp [hs])]
      · rw [if_neg hs, if_pos (by rw [Bool.eq_false_iff.mpr hs]; rfl)]

/-- C5 amended: split_and_send_file attempts every chunk in index order
regardless of earlier failures (best-effort), reports exactly the failed
indices — as chat messages, not as a return value — and reports the
request successful iff the splitter produced at least one chunk,
independently of how many chunk sends failed. -/
theorem c5_amended_best_effort (chunkSize : Nat) (filename : List Char)
    (data : List Nat) (sendOk : Nat → Bool) :
    ((split_and_send_file chunkSize filename data sendOk).1 = true ↔
      split_file chunkSize filename data ≠ []) ∧
    ((split_and_send_file chunkSize filename data sendOk).1 = true →
      (split_and_send_file chunkSize filename data sendOk).2.1 =
        (List.range (split_file chunkSize filename data).length).map (· + 1) ∧
      (split_and_send_file chunkSize filename data sendOk).2.2 =
        ((List.range (split_file chunkSize filename data).length).map
          (· + 1)).filter (fun i => !sendOk i)) := by
  unfold split_and_send_file
  by_cases h : split_file chunkSize filename data = []
  · rw [if_pos h]
    constructor
    · constructor
      · intro hf
        exact absurd hf Bool.false_ne_true
      · intro hne
        exact absurd h hne
    · intro hf
      exact absurd hf Bool.false_ne_true
  · rw [if_neg h]
    refine ⟨⟨fun _ => h, fun _ => rfl⟩, fun _ => ?_⟩
    exact ⟨(sendChunksLoop_spec sendOk (split_file chunkSize filename data) 1).1,
      (sendChunksLoop_spec sendOk (split_file chunkSize filename data) 1).2⟩

/-- Witness for C5 amended at a concrete input: every implication
discharged for the two-chunk split of 5 6 7 with all sends failing. -/
theorem c5_amended_best_effort_witness :
    (split_and_send_file 2 ['a', '.', 't'] [5, 6, 7] (fun _ => true)).2.1 =
      (List.range (split_file 2 ['a', '.', 't'] [5, 6, 7]).length).map (· + 1) := by
  exact ((c5_amended_best_effort 2 ['a', '.', 't'] [5, 6, 7] (fun _ => true)).2
    (by rfl)).1

end UrlUpload
